import Mathlib

/-!
Shallow embedding of the streaming-aggregation pipeline from
`examples/streaming-aggregation.ipynb`.

The notebook builds two families of streaming aggregations over pandas
DataFrames of timestamped taxi trips:

* a sliding-window image aggregation (`aggregate_df` / `aggregate_images`,
  and the equivalent closures inside `SlidingWindowImageAggregate`), backed
  by a `deque(maxlen=n)` window;
* a cumulative mean (`cumulative_mean_queue`'s `accumulator`/`merge`
  functions, and the equivalent `CumulativeMean.update`), with results
  pushed into a `deque(maxlen=history)` retention buffer.

Modelling decisions, all taken from the source:

* Timestamps are integers (`pd.Timestamp` values).  A pandas `Timestamp`
  defines no `__bool__`, so every concrete timestamp is truthy; `None` is
  falsy; `float('nan')` (the value `pd.DataFrame().index.min()` returns on
  the empty `RangeIndex`) is truthy.  `PyTime` captures exactly these three
  shapes together with their Python truthiness.
* A batch (`pd.DataFrame`) is its list of rows, each row a timestamp (the
  index entry) paired with the value of the one column the aggregation
  reads, plus a flag recording whether that column exists at all.  The
  empty batches produced by `taxi_trips_stream.get_group`'s `KeyError`
  branch are bare `pd.DataFrame()` objects: no rows and no columns.
* Numeric values are rationals; the notebook's floats are used only for
  sums and one division per emission.
* Fallible Python code (`df[column]` on a missing column, tuple unpacking
  of the wrong arity, `iterable[0]` on an empty sequence) is embedded in
  `Except Err`.
-/

namespace StreamAgg

/-- A Python value standing where the notebook keeps a timestamp:
`None` (falsy), `float('nan')` (truthy — what the empty `RangeIndex`'s
`.min()` returns), or a concrete `pd.Timestamp` (always truthy, since
`Timestamp` has no `__bool__`). -/
inductive PyTime where
  | noneV : PyTime
  | nanV : PyTime
  | ts : Int → PyTime
deriving DecidableEq, Repr

/-- Python truthiness of a `PyTime`, as tested by `if not self.oldest`. -/
def PyTime.truthy : PyTime → Bool
  | .noneV => false
  | .nanV => true
  | .ts _ => true

/-- The integer payload of a concrete timestamp, if any. -/
def PyTime.toInt : PyTime → Option Int
  | .noneV => none
  | .nanV => none
  | .ts t => some t

/-- Python exceptions raised by the embedded code: `KeyError` from
`df[column]` when the column is absent, `ValueError` from unpacking a
tuple of the wrong arity, `IndexError` from `iterable[0]` on an empty
sequence. -/
inductive Err where
  | keyError : Err
  | unpackError : Err
  | indexError : Err
deriving DecidableEq, Repr

/-- One DataFrame batch as the aggregations see it: `rows` pairs each
index timestamp with the value of the column being aggregated, and
`hasColumn` records whether that column exists in the frame (the empty
frames from `get_group`'s `KeyError` branch have no columns at all). -/
structure Batch where
  hasColumn : Bool
  rows : List (Int × Rat)
deriving DecidableEq, Repr

/-- `df.index.min()`: the least index entry; on an empty frame pandas
returns `NaN` (the empty `RangeIndex` has no minimum). -/
def indexMin (b : Batch) : PyTime :=
  match b.rows.map Prod.fst with
  | [] => PyTime.nanV
  | t :: rest => PyTime.ts (rest.foldl min t)

/-- `df.index.max()`: the greatest index entry, `NaN` on an empty frame. -/
def indexMax (b : Batch) : PyTime :=
  match b.rows.map Prod.fst with
  | [] => PyTime.nanV
  | t :: rest => PyTime.ts (rest.foldl max t)

/-- The plain sum of the aggregated column's values. -/
def batchSum (b : Batch) : Rat :=
  (b.rows.map Prod.snd).sum

/-- `df[column].sum()`: raises `KeyError` when the column is absent from
the frame, otherwise sums the column (an empty column sums to `0`). -/
def colSum (b : Batch) : Except Err Rat :=
  if b.hasColumn then Except.ok (batchSum b) else Except.error Err.keyError

/-- Modelled from the spec: `Canvas.points` (the datashader reduction the
notebook calls inside `aggregate_df`) is not part of this source tree.
Per the spec's Reducer contract it applies the configured reduction
operator per key and "must tolerate an empty batch … by producing a
PartialAggregate whose payload is the reduction operator's identity
element".  We model the payload as the reduced column total, with identity
`0` on an empty batch; all the claims need of the payload is that it is
produced without failure and summed by the Combiner. -/
def canvasPoints (b : Batch) : Rat :=
  batchSum b

/-- A PartialAggregate: the 3-tuple
`(df.index.min(), df.index.max(), cvs.points(df, x, y, agg))`
returned by `aggregate_df`. -/
structure PAgg where
  minT : PyTime
  maxT : PyTime
  payload : Rat
deriving DecidableEq, Repr

/-- `aggregate_df(df, cvs, x, y, agg)` (and the identical closure inside
`SlidingWindowImageAggregate.__init__`): reduce one batch to a
PartialAggregate. -/
def aggregate_df (b : Batch) : PAgg :=
  ⟨indexMin b, indexMax b, canvasPoints b⟩

/-- A FinalAggregate as emitted by `aggregate_images`: the shaded image is
opaque, so we keep the two timestamps the `name` string is formatted from
(`"\x7b:.10\x7d - \x7b:.10\x7d".format(str(iterable[0][0]), str(iterable[-1][1]))`)
and the merged payload `total = sum([item[2] for item in iterable])`. -/
structure FinalAgg where
  rangeStart : PyTime
  rangeEnd : PyTime
  value : Rat
deriving DecidableEq, Repr

/-- `aggregate_images(iterable, cmap)` (and the identical closure inside
`SlidingWindowImageAggregate.__init__`): on an empty window the very first
expression `iterable[0]` raises `IndexError`; otherwise the emitted range
is the FIRST element's `minTimestamp` (`iterable[0][0]`) and the LAST
element's `maxTimestamp` (`iterable[-1][1]`), and the value is the sum of
the payloads.  `tf.shade`/`tf.set_background` are opaque renderers. -/
def aggregate_images : List PAgg → Except Err FinalAgg
  | [] => Except.error Err.indexError
  | p :: rest =>
      Except.ok ⟨p.minT, ((p :: rest).getLastD p).maxT,
                 ((p :: rest).map PAgg.payload).sum⟩

/-- Concrete timestamps occurring in a list of `PyTime`s. -/
def tsVals (l : List PyTime) : List Int :=
  l.filterMap PyTime.toInt

/-- Least element of an integer list, `none` on the empty list. -/
def listMinI : List Int → Option Int
  | [] => none
  | x :: xs => some (xs.foldl min x)

/-- Greatest element of an integer list, `none` on the empty list. -/
def listMaxI : List Int → Option Int
  | [] => none
  | x :: xs => some (xs.foldl max x)

/-- The spec's words for the Combiner's range start: "rangeStart = min
over window of minTimestamp (ignoring None entries)".  Stated separately
from `aggregate_images` so the two can be compared. -/
def specRangeStart (w : List PAgg) : Option Int :=
  listMinI (tsVals (w.map PAgg.minT))

/-- The spec's words for the Combiner's range end: "rangeEnd = max over
window of maxTimestamp". -/
def specRangeEnd (w : List PAgg) : Option Int :=
  listMaxI (tsVals (w.map PAgg.maxT))

/-- `deque(maxlen=cap).append(x)`: keep the last `cap` elements of
`l ++ [x]` (when the deque is full the single oldest element is dropped
from the left; `maxlen=0` keeps nothing). -/
def pushCap {α : Type} (cap : Nat) (l : List α) (x : α) : List α :=
  (l ++ [x]).drop (l.length + 1 - cap)

/-- Pushing a whole list, oldest first, into an initially empty
`deque(maxlen=cap)` — the retention queues built by
`aggregated_sliding_window_image_queue` and `cumulative_mean_queue`
(`q = deque(maxlen=history)` fed by `sink(q.append)`). -/
def qFold {α : Type} (cap : Nat) (xs : List α) : List α :=
  xs.foldl (pushCap cap) []

/-- One `SlidingWindowImageAggregate.update(x)` call: append
`self.agg1(x)` to `self.cache` (a `deque(maxlen=n)`) and emit
`self.agg2(tuple(self.cache))`. -/
def swStep (n : Nat) (cache : List PAgg) (b : Batch) :
    List PAgg × Except Err FinalAgg :=
  let cache2 := pushCap n cache (aggregate_df b)
  (cache2, aggregate_images cache2)

/-- The successive window contents (`tuple(self.cache)` at each emission)
produced by feeding a list of batches, one `update` per batch. -/
def swRunCaches (n : Nat) : List PAgg → List Batch → List (List PAgg)
  | _, [] => []
  | c, b :: bs =>
      let c2 := pushCap n c (aggregate_df b)
      c2 :: swRunCaches n c2 bs

/-- The mutable state of a `CumulativeMean` stream:
`self.count`, `self.total`, `self.oldest`. -/
structure CMState where
  count : Nat
  total : Rat
  oldest : PyTime
deriving DecidableEq, Repr

/-- `__init__`: `self.count = 0; self.total = 0; self.oldest = None`. -/
def CMState.init : CMState :=
  ⟨0, 0, PyTime.noneV⟩

/-- One emitted cumulative result:
`(self.oldest, x.index.max(), self.total / self.count)`. -/
structure CMEmit where
  oldest : PyTime
  latest : PyTime
  mean : Rat
deriving DecidableEq, Repr

/-- `CumulativeMean.update(x)`.  Faithful statement order:
1. `if not self.oldest: self.oldest = x.index.min()` — runs first, so the
   `oldest` assignment happens even on a call that later raises;
2. `self.count, self.total = self.count + 1, self.total + x[self.column].sum()`
   — the right-hand side is evaluated before either assignment, so a
   `KeyError` from `x[self.column]` leaves `count` and `total` untouched;
3. `self.emit((self.oldest, x.index.max(), self.total / self.count))`. -/
def cmUpdate (s : CMState) (x : Batch) : CMState × Except Err CMEmit :=
  let oldest2 := if s.oldest.truthy then s.oldest else indexMin x
  match colSum x with
  | Except.error e => (⟨s.count, s.total, oldest2⟩, Except.error e)
  | Except.ok v =>
      let count2 := s.count + 1
      let total2 := s.total + v
      (⟨count2, total2, oldest2⟩,
       Except.ok ⟨oldest2, indexMax x, total2 / (count2 : Rat)⟩)

/-- The emissions produced by a sequence of `update` calls (a raising
call emits nothing; its state side effects are kept). -/
def cmEmissions : CMState → List Batch → List CMEmit
  | _, [] => []
  | s, b :: bs =>
      match cmUpdate s b with
      | (s2, Except.ok e) => e :: cmEmissions s2 bs
      | (s2, Except.error _) => cmEmissions s2 bs

/-- The state after a sequence of `update` calls. -/
def cmRunState : CMState → List Batch → CMState
  | s, [] => s
  | s, b :: bs => cmRunState (cmUpdate s b).1 bs

/-- The accumulator value threaded by `cumulative_mean_queue`'s
`source.accumulate(accumulator, start=(0, 0, None))`: the seed is a
3-tuple, every successful `accumulator` return is a 4-tuple. -/
inductive AccVal where
  | t3 : Nat → Rat → PyTime → AccVal
  | t4 : Nat → Rat → PyTime → PyTime → AccVal
deriving DecidableEq, Repr

/-- Whether an accumulator value is a 4-tuple. -/
def AccVal.isT4 : AccVal → Bool
  | .t3 _ _ _ => false
  | .t4 _ _ _ _ => true

/-- The seed `start=(0, 0, None)`. -/
def accStart : AccVal :=
  AccVal.t3 0 0 PyTime.noneV

/-- `accumulator(acc, df)` from `cumulative_mean_queue`:
`n, total, oldest = acc` raises `ValueError` on a 4-tuple; otherwise
`if not oldest: oldest = df.index.min()` and it returns the 4-tuple
`(n + 1, total + df[column].sum(), oldest, df.index.max())`, where
`df[column]` raises `KeyError` on a column-less frame. -/
def accumulator (acc : AccVal) (df : Batch) : Except Err AccVal :=
  match acc with
  | AccVal.t4 _ _ _ _ => Except.error Err.unpackError
  | AccVal.t3 n total oldest =>
      let oldest2 := if oldest.truthy then oldest else indexMin df
      match colSum df with
      | Except.error e => Except.error e
      | Except.ok v =>
          Except.ok (AccVal.t4 (n + 1) (total + v) oldest2 (indexMax df))

/-- `merge(value)` from `cumulative_mean_queue`:
`n, total, oldest, latest = value` raises `ValueError` on a 3-tuple,
otherwise returns `(oldest, latest, total / n)`. -/
def merge : AccVal → Except Err (PyTime × PyTime × Rat)
  | AccVal.t3 _ _ _ => Except.error Err.unpackError
  | AccVal.t4 n total oldest latest =>
      Except.ok (oldest, latest, total / (n : Rat))

/-- How many `accumulate` steps succeed over a batch sequence (a raising
step leaves the threaded state unchanged, as `streamz` keeps its
accumulator state when the user function raises). -/
def accRunCount : AccVal → List Batch → Nat
  | _, [] => 0
  | acc, b :: bs =>
      match accumulator acc b with
      | Except.ok acc2 => 1 + accRunCount acc2 bs
      | Except.error _ => accRunCount acc bs

/-- First tuple slot of an accumulator value (`n`). -/
def AccVal.nVal : AccVal → Nat
  | .t3 n _ _ => n
  | .t4 n _ _ _ => n

/-- Second tuple slot of an accumulator value (`total`). -/
def AccVal.totalVal : AccVal → Rat
  | .t3 _ t _ => t
  | .t4 _ t _ _ => t

/-- Third tuple slot of an accumulator value (`oldest`). -/
def AccVal.oldestVal : AccVal → PyTime
  | .t3 _ _ o => o
  | .t4 _ _ o _ => o

/-- Fourth tuple slot of a 4-tuple accumulator value (`latest`). -/
def AccVal.latestVal : AccVal → PyTime
  | .t3 _ _ o => o
  | .t4 _ _ _ l => l

/-- Whether a fallible computation returned normally. -/
def isOkE {ε α : Type} : Except ε α → Bool
  | Except.ok _ => true
  | Except.error _ => false

instance {ε α : Type} [DecidableEq ε] [DecidableEq α] :
    DecidableEq (Except ε α) := fun x y =>
  match x, y with
  | Except.ok a, Except.ok b =>
      if h : a = b then isTrue (by rw [h])
      else isFalse (fun hc => h (by injection hc))
  | Except.error a, Except.error b =>
      if h : a = b then isTrue (by rw [h])
      else isFalse (fun hc => h (by injection hc))
  | Except.ok _, Except.error _ => isFalse (fun hc => Except.noConfusion hc)
  | Except.error _, Except.ok _ => isFalse (fun hc => Except.noConfusion hc)

section Claims

/-- Claim C10: for every empty batch (no rows), the Reducer
`aggregate_df` does not fail and returns a PartialAggregate whose payload
is the reduction operator's identity element (`0`); its min/max
timestamps are the `NaN` pandas returns for an empty index.
(`aggregate_df` is total in this embedding: `Canvas.points` is modelled
from the spec as tolerating empty input, see `canvasPoints`.) -/
theorem reducer_tolerates_empty_batch :
    ∀ b : Batch, b.rows = [] →
      aggregate_df b = ⟨PyTime.nanV, PyTime.nanV, 0⟩ := by
  intro b h
  simp [aggregate_df, indexMin, indexMax, canvasPoints, batchSum, h]

/-- Witness for C10 at the concrete empty batch `pd.DataFrame()`
(no rows, no columns) produced by `taxi_trips_stream.get_group`. -/
theorem reducer_tolerates_empty_batch_witness :
    aggregate_df ⟨false, []⟩ = ⟨PyTime.nanV, PyTime.nanV, 0⟩ :=
  reducer_tolerates_empty_batch ⟨false, []⟩ rfl

/-- Claim C4 (code bug demonstration): pushing the empty batch that
`taxi_trips_stream.get_group` actually produces (a bare `pd.DataFrame()`
with no rows and no columns) to `CumulativeMean.update` raises `KeyError`
at `x[self.column]` instead of summing to `0`: no emission happens and
`count`/`total` are left untouched, contradicting the claim that the
update cannot raise and increments `count`. -/
theorem cumulative_update_empty_batch_keyerror :
    ∀ s : CMState,
      (cmUpdate s ⟨false, []⟩).2 = Except.error Err.keyError
      ∧ (cmUpdate s ⟨false, []⟩).1.count = s.count
      ∧ (cmUpdate s ⟨false, []⟩).1.total = s.total := by
  intro s
  simp [cmUpdate, colSum]

/-- Claim C8: whenever `CumulativeMean.update` reaches its division (it
emits), the state's `count` was incremented first, so the divisor is
strictly positive; likewise every successful `accumulator` step hands
`merge` a 4-tuple whose `n` is strictly positive, so `merge`'s division
is by a positive count. -/
theorem cumulative_mean_divisor_positive :
    (∀ (s : CMState) (x : Batch) (s2 : CMState) (e : CMEmit),
        cmUpdate s x = (s2, Except.ok e) →
        s2.count = s.count + 1 ∧ 0 < s2.count
          ∧ e.mean = s2.total / (s2.count : Rat))
    ∧ (∀ (acc : AccVal) (df : Batch) (acc2 : AccVal),
        accumulator acc df = Except.ok acc2 →
        0 < acc2.nVal
          ∧ merge acc2 = Except.ok (acc2.oldestVal, acc2.latestVal,
              acc2.totalVal / (acc2.nVal : Rat))) := by
  constructor
  · intro s x s2 e h
    unfold cmUpdate at h
    rcases hx : colSum x with ex | v
    · rw [hx] at h
      simp at h
    · rw [hx] at h
      simp only [Prod.mk.injEq, Except.ok.injEq] at h
      obtain ⟨h1, h2⟩ := h
      subst h1
      subst h2
      refine ⟨rfl, Nat.succ_pos _, rfl⟩
  · intro acc df acc2 h
    cases acc with
    | t4 n t o l => simp [accumulator] at h
    | t3 n t o =>
      unfold accumulator at h
      rcases hx : colSum df with ex | v
      · rw [hx] at h
        simp at h
      · rw [hx] at h
        simp only [Except.ok.injEq] at h
        subst h
        exact ⟨Nat.succ_pos _, rfl⟩

/-- Witness for C8 at a concrete one-row batch, discharging both
hypotheses (a successful `cmUpdate` call and a successful `accumulator`
call). -/
theorem cumulative_mean_divisor_positive_witness :
    ((⟨1, 4, PyTime.ts 0⟩ : CMState).count = CMState.init.count + 1
      ∧ 0 < (⟨1, 4, PyTime.ts 0⟩ : CMState).count
      ∧ (⟨PyTime.ts 0, PyTime.ts 0, 4⟩ : CMEmit).mean
          = (⟨1, 4, PyTime.ts 0⟩ : CMState).total
              / ((⟨1, 4, PyTime.ts 0⟩ : CMState).count : Rat))
    ∧ (0 < (AccVal.t4 1 4 (PyTime.ts 0) (PyTime.ts 0)).nVal
      ∧ merge (AccVal.t4 1 4 (PyTime.ts 0) (PyTime.ts 0))
          = Except.ok ((AccVal.t4 1 4 (PyTime.ts 0) (PyTime.ts 0)).oldestVal,
              (AccVal.t4 1 4 (PyTime.ts 0) (PyTime.ts 0)).latestVal,
              (AccVal.t4 1 4 (PyTime.ts 0) (PyTime.ts 0)).totalVal
                / ((AccVal.t4 1 4 (PyTime.ts 0) (PyTime.ts 0)).nVal : Rat))) :=
  ⟨cumulative_mean_divisor_positive.1 CMState.init ⟨true, [(0, 4)]⟩
      ⟨1, 4, PyTime.ts 0⟩ ⟨PyTime.ts 0, PyTime.ts 0, 4⟩
      (by simp [cmUpdate, colSum, batchSum, indexMin, indexMax, CMState.init,
                PyTime.truthy]),
   cumulative_mean_divisor_positive.2 accStart ⟨true, [(0, 4)]⟩
      (AccVal.t4 1 4 (PyTime.ts 0) (PyTime.ts 0))
      (by simp [accumulator, accStart, colSum, batchSum, indexMin, indexMax,
                PyTime.truthy])⟩

/-- `accumulator` applied to any 4-tuple raises `ValueError` at
`n, total, oldest = acc`. -/
theorem accumulator_t4_raises (n : Nat) (t : Rat) (o l : PyTime) (df : Batch) :
    accumulator (AccVal.t4 n t o l) df = Except.error Err.unpackError :=
  rfl

/-- Every successful `accumulator` step returns a 4-tuple. -/
theorem accumulator_ok_isT4 (n : Nat) (t : Rat) (o : PyTime) (df : Batch)
    (acc2 : AccVal) (h : accumulator (AccVal.t3 n t o) df = Except.ok acc2) :
    acc2.isT4 = true := by
  unfold accumulator at h
  rcases hx : colSum df with e | v
  · rw [hx] at h
    simp at h
  · rw [hx] at h
    simp only [Except.ok.injEq] at h
    subst h
    rfl

/-- From a 4-tuple state every `accumulator` step raises, so no step
ever succeeds again. -/
theorem accRunCount_t4_eq_zero :
    ∀ (bs : List Batch) (n : Nat) (t : Rat) (o l : PyTime),
      accRunCount (AccVal.t4 n t o l) bs = 0 := by
  intro bs
  induction bs with
  | nil => intro n t o l; rfl
  | cons b bs ih =>
    intro n t o l
    simp only [accRunCount, accumulator_t4_raises]
    exact ih n t o l

/-- From any 3-tuple state at most one `accumulator` step ever succeeds. -/
theorem accRunCount_t3_le_one :
    ∀ (bs : List Batch) (n : Nat) (t : Rat) (o : PyTime),
      accRunCount (AccVal.t3 n t o) bs ≤ 1 := by
  intro bs
  induction bs with
  | nil => intro n t o; exact Nat.zero_le 1
  | cons b bs ih =>
    intro n t o
    cases hx : accumulator (AccVal.t3 n t o) b with
    | error e =>
      simp only [accRunCount, hx]
      exact ih n t o
    | ok acc2 =>
      have hsh := accumulator_ok_isT4 n t o b acc2 hx
      cases acc2 with
      | t3 n2 t2 o2 => simp [AccVal.isT4] at hsh
      | t4 n2 t2 o2 l2 =>
        simp only [accRunCount, hx, accRunCount_t4_eq_zero]
        omega

/-- Claim C3: the accumulator of `cumulative_mean_queue` is seeded with
the 3-tuple `(0, 0, None)` but every successful call returns a 4-tuple;
a call on a 4-tuple state raises `ValueError` at `n, total, oldest = acc`,
so the stream successfully processes at most one batch. -/
theorem accumulator_arity_mismatch :
    accStart = AccVal.t3 0 0 PyTime.noneV
    ∧ (∀ (n : Nat) (t : Rat) (o : PyTime) (df : Batch) (acc2 : AccVal),
        accumulator (AccVal.t3 n t o) df = Except.ok acc2 → acc2.isT4 = true)
    ∧ (∀ (n : Nat) (t : Rat) (o l : PyTime) (df : Batch),
        accumulator (AccVal.t4 n t o l) df = Except.error Err.unpackError)
    ∧ (∀ bs : List Batch, accRunCount accStart bs ≤ 1) :=
  ⟨rfl, accumulator_ok_isT4, accumulator_t4_raises,
   fun bs => accRunCount_t3_le_one bs 0 0 PyTime.noneV⟩

/-- Witness for C3: the first update succeeds and returns a 4-tuple, the
second update (now holding a 4-tuple) raises, and a concrete 3-batch run
succeeds at most once. -/
theorem accumulator_arity_mismatch_witness :
    (AccVal.t4 1 4 (PyTime.ts 0) (PyTime.ts 0)).isT4 = true
    ∧ accumulator (AccVal.t4 1 4 (PyTime.ts 0) (PyTime.ts 0)) ⟨true, [(1, 6)]⟩
        = Except.error Err.unpackError
    ∧ accRunCount accStart
        [⟨true, [(0, 4)]⟩, ⟨true, [(1, 6)]⟩, ⟨true, [(2, 10)]⟩] ≤ 1 :=
  ⟨accumulator_arity_mismatch.2.1 0 0 PyTime.noneV ⟨true, [(0, 4)]⟩
      (AccVal.t4 1 4 (PyTime.ts 0) (PyTime.ts 0))
      (by simp [accumulator, colSum, batchSum, indexMin, indexMax,
                PyTime.truthy]),
   accumulator_arity_mismatch.2.2.1 1 4 (PyTime.ts 0) (PyTime.ts 0)
      ⟨true, [(1, 6)]⟩,
   accumulator_arity_mismatch.2.2.2
      [⟨true, [(0, 4)]⟩, ⟨true, [(1, 6)]⟩, ⟨true, [(2, 10)]⟩]⟩

/-- `df.index.min()` is never falsy: a nonempty index yields a concrete
timestamp and an empty one yields `NaN`, which is truthy in Python. -/
theorem indexMin_truthy (b : Batch) : (indexMin b).truthy = true := by
  unfold indexMin
  rcases hx : b.rows.map Prod.fst with _ | ⟨t, rest⟩
  · rfl
  · rfl

/-- The state's `oldest` after an update, successful or not. -/
theorem cmUpdate_state_oldest (s : CMState) (x : Batch) :
    (cmUpdate s x).1.oldest
      = if s.oldest.truthy then s.oldest else indexMin x := by
  unfold cmUpdate
  rcases hx : colSum x with e | v <;> simp [hx]

/-- After any `CumulativeMean.update` call the state's `oldest` is
truthy, so the `if not self.oldest` guard never fires again. -/
theorem cmUpdate_oldest_truthy (s : CMState) (x : Batch) :
    ((cmUpdate s x).1.oldest).truthy = true := by
  rw [cmUpdate_state_oldest]
  cases hb : s.oldest.truthy
  · simp [hb, indexMin_truthy]
  · simp [hb]

/-- A successful update emits exactly the state's (new) `oldest`. -/
theorem cmUpdate_emit_oldest (s : CMState) (x : Batch) (s2 : CMState)
    (e : CMEmit) (h : cmUpdate s x = (s2, Except.ok e)) :
    e.oldest = s2.oldest := by
  unfold cmUpdate at h
  rcases hx : colSum x with e2 | v <;> rw [hx] at h
  · simp at h
  · simp only [Prod.mk.injEq, Except.ok.injEq] at h
    obtain ⟨h1, h2⟩ := h
    subst h1
    subst h2
    rfl

/-- Once the state's `oldest` is truthy, every later emission carries
exactly that value. -/
theorem emissions_oldest_const :
    ∀ (bs : List Batch) (s : CMState), s.oldest.truthy = true →
      ∀ e ∈ cmEmissions s bs, e.oldest = s.oldest := by
  intro bs
  induction bs with
  | nil => intro s _ e he; simp [cmEmissions] at he
  | cons b bs ih =>
    intro s hs e he
    rcases hu : cmUpdate s b with ⟨s2, r⟩
    have hold : s2.oldest = s.oldest := by
      have hso := cmUpdate_state_oldest s b
      rw [hu] at hso
      simpa [hs] using hso
    have hs2 : s2.oldest.truthy = true := by rw [hold]; exact hs
    cases r with
    | ok em =>
      have hem : em.oldest = s2.oldest := cmUpdate_emit_oldest s b s2 em hu
      rw [show cmEmissions s (b :: bs) = em :: cmEmissions s2 bs from by
            simp [cmEmissions, hu]] at he
      rcases List.mem_cons.mp he with h1 | h1
      · subst h1; rw [hem, hold]
      · rw [ih s2 hs2 e h1, hold]
    | error err =>
      rw [show cmEmissions s (b :: bs) = cmEmissions s2 bs from by
            simp [cmEmissions, hu]] at he
      rw [ih s2 hs2 e he, hold]

/-- A list all of whose images under `f` are one fixed value is pairwise
`f`-equal. -/
theorem pairwise_of_all_eq {β : Type} (f : β → PyTime) (o : PyTime) :
    ∀ l : List β, (∀ e ∈ l, f e = o) →
      l.Pairwise (fun a b => f a = f b) := by
  intro l
  induction l with
  | nil => intro; exact List.Pairwise.nil
  | cons a as ih =>
    intro h
    refine List.Pairwise.cons ?_ (ih ?_)
    · intro b hb
      rw [h a (by simp), h b (by simp [hb])]
    · intro e he
      exact h e (by simp [he])

/-- Claim C5: across any sequence of `CumulativeMean.update` calls the
emitted `oldest` never changes at all (once set by the first update it is
truthy and the `if not self.oldest` guard never reassigns it), so in
particular it never moves to a later timestamp. -/
theorem cumulative_oldest_never_replaced :
    ∀ bs : List Batch,
      List.Pairwise (fun e1 e2 => e1.oldest = e2.oldest)
        (cmEmissions CMState.init bs) := by
  intro bs
  cases bs with
  | nil => simp [cmEmissions]
  | cons b bs =>
    rcases hu : cmUpdate CMState.init b with ⟨s2, r⟩
    have hs2 : s2.oldest.truthy = true := by
      have hso := cmUpdate_oldest_truthy CMState.init b
      rw [hu] at hso
      exact hso
    cases r with
    | ok em =>
      have hem : em.oldest = s2.oldest := cmUpdate_emit_oldest _ b s2 em hu
      rw [show cmEmissions CMState.init (b :: bs)
            = em :: cmEmissions s2 bs from by simp [cmEmissions, hu]]
      refine List.Pairwise.cons ?_ ?_
      · intro e2 he2
        rw [hem, emissions_oldest_const bs s2 hs2 e2 he2]
      · exact pairwise_of_all_eq CMEmit.oldest s2.oldest _
          (emissions_oldest_const bs s2 hs2)
    | error err =>
      rw [show cmEmissions CMState.init (b :: bs)
            = cmEmissions s2 bs from by simp [cmEmissions, hu]]
      exact pairwise_of_all_eq CMEmit.oldest s2.oldest _
        (emissions_oldest_const bs s2 hs2)

/-- Appending to a `deque(maxlen=cap)` caps the length at `cap`. -/
theorem length_pushCap {α : Type} (cap : Nat) (l : List α) (x : α) :
    (pushCap cap l x).length = min (l.length + 1) cap := by
  unfold pushCap
  rw [List.length_drop, List.length_append, List.length_singleton]
  omega

/-- Folding pushes into a bounded deque keeps exactly the last `cap`
elements of everything seen so far. -/
theorem foldl_pushCap_eq_drop {α : Type} (cap : Nat) :
    ∀ (xs acc : List α), acc.length ≤ cap →
      xs.foldl (pushCap cap) acc
        = (acc ++ xs).drop (acc.length + xs.length - cap) := by
  intro xs
  induction xs with
  | nil =>
    intro acc h
    simp [Nat.sub_eq_zero_of_le h]
  | cons x xs ih =>
    intro acc h
    rw [List.foldl_cons]
    have hlen : (pushCap cap acc x).length = min (acc.length + 1) cap :=
      length_pushCap cap acc x
    have hle : (pushCap cap acc x).length ≤ cap := by
      rw [hlen]; exact Nat.min_le_right _ _
    rw [ih (pushCap cap acc x) hle]
    rcases le_or_lt (acc.length + 1) cap with hcap | hcap
    · have hpc : pushCap cap acc x = acc ++ [x] := by
        unfold pushCap
        rw [Nat.sub_eq_zero_of_le hcap, List.drop_zero]
      rw [hpc, List.append_assoc, List.singleton_append]
      congr 1
      rw [List.length_append, List.length_singleton, List.length_cons]
      omega
    · have hL : acc.length = cap := Nat.le_antisymm h (by omega)
      have hpc : pushCap cap acc x = (acc ++ [x]).drop 1 := by
        unfold pushCap
        congr 1
        omega
      rw [hpc,
          ← List.drop_append_of_le_length
            (by rw [List.length_append, List.length_singleton] ; omega :
              1 ≤ (acc ++ [x]).length),
          List.drop_drop, List.append_assoc, List.singleton_append]
      congr 1
      rw [List.length_drop, List.length_append, List.length_singleton,
          List.length_cons]
      omega

/-- What an initially empty bounded deque holds after a list of pushes:
the last `cap` pushed elements, in push order. -/
theorem qFold_eq_drop {α : Type} (cap : Nat) (xs : List α) :
    qFold cap xs = xs.drop (xs.length - cap) := by
  have h := foldl_pushCap_eq_drop cap xs [] (by simp)
  simpa [qFold] using h

/-- Claim C6: a `deque(maxlen=H)` retention buffer that received
`n > H` pushes holds exactly the last `H` pushed items in push order
(oldest first), hence exactly `H` items. -/
theorem retention_buffer_keeps_last :
    ∀ (α : Type) (H : Nat) (xs : List α), 1 ≤ H → H < xs.length →
      qFold H xs = xs.drop (xs.length - H) ∧ (qFold H xs).length = H := by
  intro α H xs h1 h2
  refine ⟨qFold_eq_drop H xs, ?_⟩
  rw [qFold_eq_drop H xs, List.length_drop]
  omega

/-- Witness for C6: the spec's scenario — a capacity-2 buffer receiving
three pushes holds the last two, in order. -/
theorem retention_buffer_keeps_last_witness :
    qFold 2 [(10 : Int), 20, 30] = [20, 30]
    ∧ (qFold 2 [(10 : Int), 20, 30]).length = 2 := by
  have h := retention_buffer_keeps_last Int 2 [10, 20, 30] (by omega) (by decide)
  exact ⟨h.1, h.2⟩

/-- One emission per update: the run produces as many windows as there
were batches. -/
theorem swRunCaches_length (W : Nat) :
    ∀ (bs : List Batch) (c : List PAgg),
      (swRunCaches W c bs).length = bs.length := by
  intro bs
  induction bs with
  | nil => intro c; rfl
  | cons b bs ih => intro c; simp [swRunCaches, ih]

/-- Window lengths along a run, starting from any window not larger
than `W`. -/
theorem swRunCaches_map_length (W : Nat) :
    ∀ (bs : List Batch) (c : List PAgg), c.length ≤ W →
      (swRunCaches W c bs).map List.length
        = (List.range bs.length).map (fun k => min (c.length + k + 1) W) := by
  intro bs
  induction bs with
  | nil => intro c h; rfl
  | cons b bs ih =>
    intro c h
    have hlen : (pushCap W c (aggregate_df b)).length = min (c.length + 1) W :=
      length_pushCap W c (aggregate_df b)
    have hle : (pushCap W c (aggregate_df b)).length ≤ W := by
      rw [hlen]; exact Nat.min_le_right _ _
    rw [show swRunCaches W c (b :: bs)
          = pushCap W c (aggregate_df b)
            :: swRunCaches W (pushCap W c (aggregate_df b)) bs from rfl]
    rw [List.map_cons, ih _ hle, hlen, List.length_cons,
        List.range_succ_eq_map, List.map_cons, List.map_map]
    rw [show min (c.length + 0 + 1) W = min (c.length + 1) W by norm_num]
    congr 1
    apply List.map_congr_left
    intro k _
    show min (min (c.length + 1) W + k + 1) W = min (c.length + (k + 1) + 1) W
    omega

/-- Every window that a run ever combines is the result of one
bounded-deque append. -/
theorem swRunCaches_mem (W : Nat) :
    ∀ (bs : List Batch) (c : List PAgg) (x : List PAgg),
      x ∈ swRunCaches W c bs → ∃ l p, x = pushCap W l p := by
  intro bs
  induction bs with
  | nil => intro c x hx; simp [swRunCaches] at hx
  | cons b bs ih =>
    intro c x hx
    rw [show swRunCaches W c (b :: bs)
          = pushCap W c (aggregate_df b)
            :: swRunCaches W (pushCap W c (aggregate_df b)) bs from rfl] at hx
    rcases List.mem_cons.mp hx with h1 | h1
    · exact ⟨c, aggregate_df b, h1⟩
    · exact ih _ x h1

/-- Claim C2: for every window size `W ≥ 1` and batch sequence, each of
the `k` updates emits (the combine succeeds on every window), the window
combined at the `i`-th update (0-based `k`) has exactly `min (k+1) W`
elements, and no window ever exceeds `W` elements. -/
theorem sliding_window_emits_every_update :
    ∀ (W : Nat) (bs : List Batch), 1 ≤ W →
      (swRunCaches W [] bs).length = bs.length
      ∧ (swRunCaches W [] bs).map List.length
          = (List.range bs.length).map (fun k => min (k + 1) W)
      ∧ (∀ c ∈ swRunCaches W [] bs,
          c.length ≤ W ∧ isOkE (aggregate_images c) = true) := by
  intro W bs hW
  refine ⟨swRunCaches_length W bs [], ?_, ?_⟩
  · have h := swRunCaches_map_length W bs [] (by simp)
    simpa using h
  · intro c hc
    obtain ⟨l, p, rfl⟩ := swRunCaches_mem W bs [] c hc
    have hlen : (pushCap W l p).length = min (l.length + 1) W :=
      length_pushCap W l p
    refine ⟨by rw [hlen]; exact Nat.min_le_right _ _, ?_⟩
    have hpos : 0 < (pushCap W l p).length := by rw [hlen]; omega
    cases hpc : pushCap W l p with
    | nil => rw [hpc] at hpos; simp at hpos
    | cons q qs => rfl

/-- Witness for C2: the spec's scenario — `W = 2`, three batches, three
emissions with window lengths 1, 2, 2. -/
theorem sliding_window_emits_every_update_witness :
    (swRunCaches 2 []
        [⟨true, [(0, 10)]⟩, ⟨true, [(1, 20)]⟩, ⟨true, [(2, 30)]⟩]).length = 3
    ∧ (swRunCaches 2 []
        [⟨true, [(0, 10)]⟩, ⟨true, [(1, 20)]⟩,
         ⟨true, [(2, 30)]⟩]).map List.length = [1, 2, 2] := by
  have h := sliding_window_emits_every_update 2
      [⟨true, [(0, 10)]⟩, ⟨true, [(1, 20)]⟩, ⟨true, [(2, 30)]⟩] (by omega)
  exact ⟨h.1, by rw [h.2.1]; rfl⟩

/-- Claim C9: invoking the Combiner on an empty window fails (the
`IndexError` from `iterable[0]` is the failure the spec's taxonomy calls
`EmptyWindowError`), and it is unreachable through well-formed
`SlidingWindowImageAggregate.update` usage: with `n ≥ 1` the update
appends before combining, so the combined window is never empty and the
combine always returns normally. -/
theorem combiner_empty_window_unreachable :
    aggregate_images ([] : List PAgg) = Except.error Err.indexError
    ∧ (∀ (n : Nat) (c : List PAgg) (b : Batch), 1 ≤ n →
        isOkE (swStep n c b).2 = true) := by
  refine ⟨rfl, ?_⟩
  intro n c b hn
  show isOkE (aggregate_images (pushCap n c (aggregate_df b))) = true
  have hlen : (pushCap n c (aggregate_df b)).length = min (c.length + 1) n :=
    length_pushCap n c (aggregate_df b)
  have hpos : 0 < (pushCap n c (aggregate_df b)).length := by
    rw [hlen]; omega
  cases hpc : pushCap n c (aggregate_df b) with
  | nil => rw [hpc] at hpos; simp at hpos
  | cons q qs => rfl

/-- Witness for C9 at a concrete window size and batch. -/
theorem combiner_empty_window_unreachable_witness :
    aggregate_images ([] : List PAgg) = Except.error Err.indexError
    ∧ isOkE (swStep 1 [] ⟨true, [(0, 1)]⟩).2 = true :=
  ⟨combiner_empty_window_unreachable.1,
   combiner_empty_window_unreachable.2 1 [] ⟨true, [(0, 1)]⟩ (by omega)⟩

/-- What a `CumulativeMean.update` call does on a batch whose column is
present. -/
theorem cmUpdate_ok_of_hasColumn (s : CMState) (b : Batch)
    (h : b.hasColumn = true) :
    cmUpdate s b
      = (⟨s.count + 1, s.total + batchSum b,
          if s.oldest.truthy then s.oldest else indexMin b⟩,
         Except.ok ⟨if s.oldest.truthy then s.oldest else indexMin b,
           indexMax b,
           (s.total + batchSum b) / ((s.count + 1 : Nat) : Rat)⟩) := by
  unfold cmUpdate
  rw [show colSum b = Except.ok (batchSum b) from by simp [colSum, h]]

/-- The emitted means along a run of `CumulativeMean.update` calls, from
an arbitrary starting state, when every batch has the column. -/
theorem cmEmissions_map_mean :
    ∀ (bs : List Batch) (s : CMState), (∀ b ∈ bs, b.hasColumn = true) →
      (cmEmissions s bs).map CMEmit.mean
        = (List.range bs.length).map
            (fun k => (s.total + ((bs.take (k + 1)).map batchSum).sum)
                / ((s.count + k + 1 : Nat) : Rat)) := by
  intro bs
  induction bs with
  | nil => intro s _; rfl
  | cons b bs ih =>
    intro s h
    have hb : b.hasColumn = true := h b (by simp)
    have hbs : ∀ x ∈ bs, x.hasColumn = true := fun x hx => h x (by simp [hx])
    rw [show cmEmissions s (b :: bs)
          = (⟨if s.oldest.truthy then s.oldest else indexMin b, indexMax b,
              (s.total + batchSum b) / ((s.count + 1 : Nat) : Rat)⟩ : CMEmit)
            :: cmEmissions
                 ⟨s.count + 1, s.total + batchSum b,
                  if s.oldest.truthy then s.oldest else indexMin b⟩ bs from by
          simp [cmEmissions, cmUpdate_ok_of_hasColumn s b hb]]
    rw [List.map_cons, ih _ hbs, List.length_cons,
        List.range_succ_eq_map, List.map_cons, List.map_map]
    congr 1
    · show (s.total + batchSum b) / ((s.count + 1 : Nat) : Rat)
        = (s.total + (((b :: bs).take (0 + 1)).map batchSum).sum)
            / ((s.count + 0 + 1 : Nat) : Rat)
      simp
    · apply List.map_congr_left
      intro k _
      show (s.total + batchSum b + ((bs.take (k + 1)).map batchSum).sum)
            / ((s.count + 1 + k + 1 : Nat) : Rat)
          = (s.total + (((b :: bs).take (k + 1 + 1)).map batchSum).sum)
              / ((s.count + (k + 1) + 1 : Nat) : Rat)
      rw [List.take_succ_cons, List.map_cons, List.sum_cons,
          show s.count + 1 + k + 1 = s.count + (k + 1) + 1 from by omega,
          add_assoc]

/-- Claim C7: after the `k`-th update (0-based) on batches whose column
sums are `s_1..s_n`, the emitted mean is `(s_1 + … + s_(k+1)) / (k+1)`:
the running mean is exactly the average of all column sums seen so far. -/
theorem cumulative_mean_is_running_average :
    ∀ bs : List Batch, (∀ b ∈ bs, b.hasColumn = true) →
      (cmEmissions CMState.init bs).map CMEmit.mean
        = (List.range bs.length).map
            (fun k => ((bs.take (k + 1)).map batchSum).sum
                / ((k + 1 : Nat) : Rat)) := by
  intro bs h
  rw [cmEmissions_map_mean bs CMState.init h]
  apply List.map_congr_left
  intro k _
  show (0 + ((bs.take (k + 1)).map batchSum).sum) / ((0 + k + 1 : Nat) : Rat)
      = ((bs.take (k + 1)).map batchSum).sum / ((k + 1 : Nat) : Rat)
  norm_num

/-- Witness for C7: the spec's scenario — column sums 4, 6, 10 produce
mean emissions 4, 5, 20/3. -/
theorem cumulative_mean_is_running_average_witness :
    (cmEmissions CMState.init
        [⟨true, [(0, 4)]⟩, ⟨true, [(1, 6)]⟩, ⟨true, [(2, 10)]⟩]).map CMEmit.mean
      = [4, 5, 20 / 3] := by
  have h := cumulative_mean_is_running_average
      [⟨true, [(0, 4)]⟩, ⟨true, [(1, 6)]⟩, ⟨true, [(2, 10)]⟩] (by decide)
  rw [h]
  norm_num [List.range_succ, batchSum]

/-- Claim C1 counterexample: on a window whose elements are not in
chronological order, the emitted range start is the FIRST element's
`minTimestamp` (`iterable[0][0]` = 5), not the minimum over the window
(1), and the emitted range end is the LAST element's `maxTimestamp`
(`iterable[-1][1]` = 2), not the maximum over the window (6). -/
theorem combiner_range_order_counterexample :
    aggregate_images
        [⟨PyTime.ts 5, PyTime.ts 6, 1⟩, ⟨PyTime.ts 1, PyTime.ts 2, 1⟩]
      = Except.ok ⟨PyTime.ts 5, PyTime.ts 2, 2⟩
    ∧ specRangeStart
        [⟨PyTime.ts 5, PyTime.ts 6, 1⟩, ⟨PyTime.ts 1, PyTime.ts 2, 1⟩]
        = some 1
    ∧ specRangeEnd
        [⟨PyTime.ts 5, PyTime.ts 6, 1⟩, ⟨PyTime.ts 1, PyTime.ts 2, 1⟩]
        = some 6
    ∧ PyTime.ts 5 ≠ PyTime.ts 1 ∧ PyTime.ts 2 ≠ PyTime.ts 6 := by
  refine ⟨?_, by decide, by decide, by decide, by decide⟩
  simp [aggregate_images]
  norm_num

/-- The concrete timestamps of a `.ts`-mapped list are the list itself. -/
theorem tsVals_map_ts : ∀ l : List Int, tsVals (l.map PyTime.ts) = l := by
  intro l
  induction l with
  | nil => rfl
  | cons a as ih =>
    show tsVals (PyTime.ts a :: as.map PyTime.ts) = a :: as
    rw [show tsVals (PyTime.ts a :: as.map PyTime.ts)
          = a :: tsVals (as.map PyTime.ts) from by
        simp [tsVals, List.filterMap_cons, PyTime.toInt]]
    rw [ih]

/-- On a non-decreasing list the running minimum stays at the head. -/
theorem foldl_min_chain :
    ∀ (ms : List Int) (m : Int),
      List.Chain' (fun a b => a ≤ b) (m :: ms) → ms.foldl min m = m := by
  intro ms
  induction ms with
  | nil => intro m _; rfl
  | cons a as ih =>
    intro m h
    rw [List.chain'_cons] at h
    obtain ⟨hma, h2⟩ := h
    show as.foldl min (min m a) = m
    rw [min_eq_left hma]
    apply ih
    cases as with
    | nil => simp
    | cons b bs =>
      rw [List.chain'_cons] at h2 ⊢
      exact ⟨le_trans hma h2.1, h2.2⟩

/-- On a non-decreasing list the running maximum ends at the last
element. -/
theorem foldl_max_chain :
    ∀ (ms : List Int) (m : Int),
      List.Chain' (fun a b => a ≤ b) (m :: ms) →
        ms.foldl max m = ms.getLastD m := by
  intro ms
  induction ms with
  | nil => intro m _; rfl
  | cons a as ih =>
    intro m h
    rw [List.chain'_cons] at h
    obtain ⟨hma, h2⟩ := h
    show as.foldl max (max m a) = (a :: as).getLastD m
    rw [max_eq_right hma, List.getLastD_cons]
    exact ih a h2

/-- `getLastD` commutes with `map`. -/
theorem map_getLastD {α β : Type} (f : α → β) :
    ∀ (l : List α) (d : α), (l.map f).getLastD (f d) = f (l.getLastD d) := by
  intro l
  induction l with
  | nil => intro d; rfl
  | cons a as ih =>
    intro d
    rw [List.map_cons, List.getLastD_cons, List.getLastD_cons]
    exact ih a

/-- Claim C1 amended: for every non-empty window, `aggregate_images`
emits `rangeStart = ` the FIRST element's `minTimestamp`, `rangeEnd = `
the LAST element's `maxTimestamp` (the label is formatted from these) and
`value = ` the sum of payloads; these agree with the window-wide minimum
of `minTimestamp`s and maximum of `maxTimestamp`s exactly when the window
is in chronological (non-decreasing) order, as it is in the sliding
pipeline — not for arbitrary element orders. -/
theorem combiner_range_first_last :
    ∀ (p : PAgg) (rest : List PAgg) (mins maxs : List Int),
      (p :: rest).map PAgg.minT = mins.map PyTime.ts →
      (p :: rest).map PAgg.maxT = maxs.map PyTime.ts →
      List.Chain' (fun a b => a ≤ b) mins →
      List.Chain' (fun a b => a ≤ b) maxs →
      aggregate_images (p :: rest)
          = Except.ok ⟨p.minT, ((p :: rest).getLastD p).maxT,
                       ((p :: rest).map PAgg.payload).sum⟩
      ∧ PyTime.toInt p.minT = specRangeStart (p :: rest)
      ∧ PyTime.toInt (((p :: rest).getLastD p).maxT)
          = specRangeEnd (p :: rest) := by
  intro p rest mins maxs hmins hmaxs hcm hcx
  refine ⟨rfl, ?_, ?_⟩
  · cases mins with
    | nil => simp at hmins
    | cons m ms =>
      unfold specRangeStart
      rw [hmins, tsVals_map_ts]
      rw [List.map_cons, List.map_cons] at hmins
      injection hmins with h1 h2
      rw [h1]
      show some m = some (ms.foldl min m)
      rw [foldl_min_chain ms m hcm]
  · cases maxs with
    | nil => simp at hmaxs
    | cons M Ms =>
      unfold specRangeEnd
      rw [hmaxs, tsVals_map_ts]
      rw [List.map_cons, List.map_cons] at hmaxs
      injection hmaxs with h1 h2
      have hlast : ((p :: rest).getLastD p).maxT
          = PyTime.ts (Ms.getLastD M) := by
        have hm := map_getLastD PAgg.maxT (p :: rest) p
        rw [List.map_cons, h1, h2] at hm
        rw [List.getLastD_cons, map_getLastD PyTime.ts Ms M] at hm
        exact hm.symm
      rw [hlast]
      show some (Ms.getLastD M) = some (Ms.foldl max M)
      rw [foldl_max_chain Ms M hcx]

/-- Witness for C1's amended theorem on a chronologically ordered
two-element window. -/
theorem combiner_range_first_last_witness :
    aggregate_images
        [(⟨PyTime.ts 1, PyTime.ts 2, 1⟩ : PAgg), ⟨PyTime.ts 3, PyTime.ts 4, 2⟩]
      = Except.ok ⟨(⟨PyTime.ts 1, PyTime.ts 2, 1⟩ : PAgg).minT,
          (([(⟨PyTime.ts 1, PyTime.ts 2, 1⟩ : PAgg),
             ⟨PyTime.ts 3, PyTime.ts 4, 2⟩]).getLastD
            ⟨PyTime.ts 1, PyTime.ts 2, 1⟩).maxT,
          (([(⟨PyTime.ts 1, PyTime.ts 2, 1⟩ : PAgg),
             ⟨PyTime.ts 3, PyTime.ts 4, 2⟩]).map PAgg.payload).sum⟩
    ∧ PyTime.toInt (⟨PyTime.ts 1, PyTime.ts 2, 1⟩ : PAgg).minT
        = specRangeStart
            [(⟨PyTime.ts 1, PyTime.ts 2, 1⟩ : PAgg), ⟨PyTime.ts 3, PyTime.ts 4, 2⟩]
    ∧ PyTime.toInt
          ((([(⟨PyTime.ts 1, PyTime.ts 2, 1⟩ : PAgg),
              ⟨PyTime.ts 3, PyTime.ts 4, 2⟩]).getLastD
            ⟨PyTime.ts 1, PyTime.ts 2, 1⟩).maxT)
        = specRangeEnd
            [(⟨PyTime.ts 1, PyTime.ts 2, 1⟩ : PAgg), ⟨PyTime.ts 3, PyTime.ts 4, 2⟩] :=
  combiner_range_first_last ⟨PyTime.ts 1, PyTime.ts 2, 1⟩
    [⟨PyTime.ts 3, PyTime.ts 4, 2⟩] [1, 3] [2, 4] rfl rfl
    (by norm_num [List.chain'_cons]) (by norm_num [List.chain'_cons])

end Claims

end StreamAgg
